import Mathlib

/-!
Verification of the Starfest 2023 electrical-grid map renderer.

The development shallowly embeds `starfest_2023_electrical.py`:

* geographic coordinates and pixel arithmetic are modelled over `ℚ`
  (the Python code uses `np.float64`; the rational model is the exact
  idealisation of that arithmetic);
* the mutable `cv2` image is modelled as a function from pixel
  positions to colours, threaded explicitly through the drawing calls;
* the `cv2.line` / `cv2.putText` rasterisers are external to the
  repository, so they are modelled parametrically by an arbitrary
  coverage function: a drawing call paints its colour on the covered
  pixels and leaves every other pixel unchanged;
* fallible operations (`assert` in `find_map_entry`, the
  `numpy.linalg.LinAlgError` raised by `np.linalg.inv`, and a missing
  `pixel` attribute) are modelled with `Except`;
* Python's `int(...)` conversion of a float is truncation toward zero,
  modelled by `Int.tdiv` on the numerator and denominator.
-/

namespace Starfest

/-- Pixel positions on a map image, `(x, y)` as in the Python `Pixel` type. -/
abbrev Pix := Int × Int

/-- Colour channels, modelled over `ℚ` (the `cv2` BGR triples). -/
abbrev Color := ℚ × ℚ × ℚ

/-- An image is a pixel-indexed colour buffer. -/
abbrev Image := Pix → Color

/-- Geographic coordinates `(long, lat)` as stored in `MapFeature.coord`. -/
abbrev Vec2 := ℚ × ℚ

/-- Errors the pipeline can raise: the `assert False` message of
`find_map_entry`, the `numpy.linalg.LinAlgError` of `np.linalg.inv`, the
`AttributeError` for a feature without a stored `pixel` attribute, and the
argument error `cv2.line` raises when it is handed `None` as an endpoint. -/
inductive Err where
  | notFound (msg : String)
  | linAlgError
  | attributeError
  | cv2Error
deriving Repr, DecidableEq

/-- Features on the electrical grid maps, mirroring the fields set by
`MapFeature.__init__`. -/
structure MapFeature where
  name : String
  type : String
  coord : Vec2
  map_name : String
  destination : Option String
  users_2023 : Option Int
  pixel : Option (Int × Int)
deriving Repr, DecidableEq

/-- Constructor for `MapFeature`, in the argument order of
`MapFeature.__init__`: the coordinate is assembled from the `long` and `lat`
arguments, and the remaining arguments are stored unchanged. -/
def mkMapFeature (name feature_type : String) (long lat : ℚ) (map_name : String)
    (destination : Option String) (usage : Option Int) (pixel : Option (Int × Int)) :
    MapFeature :=
  ⟨name, feature_type, (long, lat), map_name, destination, usage, pixel⟩

/-- Transforms from geographic coordinates to pixel locations
(the Python `CoordToPixel` type). -/
abbrev CoordToPixel := Vec2 → Pix

/-- Python's `int(...)` on an exact rational: truncation toward zero. -/
def truncToInt (q : ℚ) : ℤ := q.num.tdiv (q.den : ℤ)

/-- Concrete 2x2 rational matrices, standing in for the 2x2 `np.ndarray`
values of the calibration code.  Field `a b` is the first row, `c d` the
second. -/
structure Mat2 where
  a : ℚ
  b : ℚ
  c : ℚ
  d : ℚ
deriving Repr, DecidableEq

/-- Determinant of a 2x2 matrix. -/
def Mat2.det (M : Mat2) : ℚ := M.a * M.d - M.b * M.c

/-- The matrix inverse computed by `np.linalg.inv` on a 2x2 matrix (the
adjugate over the determinant; only used when the determinant is nonzero). -/
def Mat2.inv (M : Mat2) : Mat2 :=
  ⟨M.d / M.det, -M.b / M.det, -M.c / M.det, M.a / M.det⟩

/-- Matrix product `np.matmul` for 2x2 matrices. -/
def Mat2.mul (M N : Mat2) : Mat2 :=
  ⟨M.a * N.a + M.b * N.c, M.a * N.b + M.b * N.d,
   M.c * N.a + M.d * N.c, M.c * N.b + M.d * N.d⟩

/-- Matrix-vector product `M.dot(v)` for a 2x2 matrix. -/
def Mat2.mulVec (M : Mat2) (v : Vec2) : Vec2 :=
  (M.a * v.1 + M.b * v.2, M.c * v.1 + M.d * v.2)

/-- The matrix `M_Degree` of `compute_coord_to_pixel_function`: its columns
are the two geographic displacement vectors from the basis. -/
def degMatrix (entry1 entry2 basis : MapFeature) : Mat2 :=
  ⟨entry1.coord.1 - basis.coord.1, entry2.coord.1 - basis.coord.1,
   entry1.coord.2 - basis.coord.2, entry2.coord.2 - basis.coord.2⟩

/-- The matrix `M_Pixel` of `compute_coord_to_pixel_function`: its columns
are the two pixel displacement vectors from the basis pixel. -/
def pixMatrix (p1 p2 pb : Int × Int) : Mat2 :=
  ⟨(p1.1 : ℚ) - (pb.1 : ℚ), (p2.1 : ℚ) - (pb.1 : ℚ),
   (p1.2 : ℚ) - (pb.2 : ℚ), (p2.2 : ℚ) - (pb.2 : ℚ)⟩

/-- The calibration matrix `M = M_Pixel * M_Degree_Inv`. -/
def calibMatrix (entry1 entry2 basis : MapFeature) (p1 p2 pb : Int × Int) : Mat2 :=
  (pixMatrix p1 p2 pb).mul (degMatrix entry1 entry2 basis).inv

/-- The inner helper of `compute_coord_to_pixel_function`: map a coordinate
through `M`, add the basis pixel, and convert each component with `int(...)`. -/
def coord_to_pixel_helper (coord : Vec2) (M : Mat2) (basis : MapFeature)
    (pb : Int × Int) : Pix :=
  let pixel := M.mulVec (coord.1 - basis.coord.1, coord.2 - basis.coord.2)
  (truncToInt (pixel.1 + (pb.1 : ℚ)), truncToInt (pixel.2 + (pb.2 : ℚ)))

/-- Embedding of `compute_coord_to_pixel_function`.  Reading the `pixel`
attribute of a feature that has none raises `AttributeError`; a singular
degree matrix makes `np.linalg.inv` raise `LinAlgError`; otherwise the
returned closure maps a coordinate through `M` and the basis offset. -/
def compute_coord_to_pixel_function (entry1 entry2 basis : MapFeature) :
    Except Err CoordToPixel :=
  match entry1.pixel, entry2.pixel, basis.pixel with
  | some p1, some p2, some pb =>
    if (degMatrix entry1 entry2 basis).det = 0 then .error .linAlgError
    else
      .ok (fun coord =>
        coord_to_pixel_helper coord (calibMatrix entry1 entry2 basis p1 p2 pb) basis pb)
  | _, _, _ => .error .attributeError

/-- Embedding of `find_map_entry`: first feature with the requested name, or
the `assert False` message. -/
def find_map_entry (features : List MapFeature) (name : String) :
    Except Err MapFeature :=
  match features.find? (fun feature => feature.name == name) with
  | some f => .ok f
  | none => .error (.notFound ("Map Feature " ++ name ++ " not found"))

/-- Embedding of `get_destination_pixel`.  Python's `if destination_name:`
is false both for `None` and for the empty string. -/
def get_destination_pixel (map_features : List MapFeature)
    (destination_name : Option String) (coord_to_pixel : CoordToPixel) :
    Except Err (Option Pix) :=
  match destination_name with
  | some d =>
    if d = "" then .ok none
    else (find_map_entry map_features d).map (fun g => some (coord_to_pixel g.coord))
  | none => .ok none

/-- Abstract coverage model for the `cv2.line` rasteriser: given the two
endpoints, the stroke width and a pixel, decide whether the stroke covers the
pixel.  The rasterisation algorithm lives in OpenCV, outside this
repository, so it stays an arbitrary parameter. -/
abbrev LineCov := Pix → Pix → Int → Pix → Bool

/-- Abstract coverage model for the `cv2.putText` rasteriser: given the text,
the text origin and a pixel, decide whether the rendered text covers the
pixel. -/
abbrev TextCov := String → Pix → Pix → Bool

/-- Model of `cv2.line`: paint `color` on every pixel the stroke covers,
leave every other pixel unchanged. -/
def cvLine (cov : LineCov) (img : Image) (p q : Pix) (color : Color)
    (width : Int) : Image :=
  fun x => if cov p q width x then color else img x

/-- Model of `cv2.putText`: paint `color` on every pixel the rendered text
covers, leave every other pixel unchanged. -/
def cvPutText (tcov : TextCov) (img : Image) (text : String) (org : Pix)
    (color : Color) : Image :=
  fun x => if tcov text org x then color else img x

/-- Model of `cv2.addWeighted(a, alpha, b, beta, 0)`: the pixelwise affine
blend of the two images. -/
def cvAddWeighted (a : Image) (alpha : ℚ) (b : Image) (beta : ℚ) : Image :=
  fun x =>
    (alpha * (a x).1 + beta * (b x).1,
     alpha * (a x).2.1 + beta * (b x).2.1,
     alpha * (a x).2.2 + beta * (b x).2.2)

/-- Drawers take the feature, its pixel position and the optional destination
pixel, and update the image (the Python `FeatureDrawer`, with the mutated
image made explicit and a `cv2` failure made an `Except` error). -/
abbrev FeatureDrawer := MapFeature → Pix → Option Pix → Image → Except Err Image

/-- Embedding of `create_line_drawer`: draw a line from the feature pixel to
the destination pixel.  The Python lambda passes `dest_pixel` straight to
`cv2.line`, so a `None` destination makes `cv2.line` raise an argument
error. -/
def create_line_drawer (cov : LineCov) (color : Color) (line_width : Int) :
    FeatureDrawer :=
  fun _ pixel dest_pixel img =>
    match dest_pixel with
    | some q => .ok (cvLine cov img pixel q color line_width)
    | none => .error .cv2Error

/-- Embedding of `create_label_drawer`: write the feature name offset from
the feature pixel. -/
def create_label_drawer (tcov : TextCov) (color : Color) : FeatureDrawer :=
  fun feature pixel _ img =>
    .ok (cvPutText tcov img feature.name (pixel.1 + 2, pixel.2 + 9) color)

/-- Embedding of `draw_crosshair`: the two diagonal strokes of width 4 with
cross size 3. -/
def draw_crosshair (cov : LineCov) (img : Image) (point : Pix) (color : Color) :
    Image :=
  let lower_left : Pix := (point.1 - 3, point.2 - 3)
  let lower_right : Pix := (point.1 + 3, point.2 - 3)
  let upper_left : Pix := (point.1 - 3, point.2 + 3)
  let upper_right : Pix := (point.1 + 3, point.2 + 3)
  cvLine cov (cvLine cov img lower_left upper_right color 4)
    lower_right upper_left color 4

/-- Embedding of `create_crosshair_drawer`. -/
def create_crosshair_drawer (cov : LineCov) (color : Color) : FeatureDrawer :=
  fun _ pixel _ img => .ok (draw_crosshair cov img pixel color)

/-- Embedding of `filter_for_type`. -/
def filter_for_type (filter_type : String) : MapFeature → Bool :=
  fun feature => feature.type == filter_type

/-- Embedding of `filter_for_line`. -/
def filter_for_line (filter_type : String) : MapFeature → Bool :=
  fun feature => feature.type == filter_type && feature.destination.isSome

/-- One iteration of the `draw_features` loop: resolve the destination pixel
(which can fail) and apply the drawer (which can also fail) to the feature. -/
def drawStep (map_features : List MapFeature) (coord_to_pixel : CoordToPixel)
    (feature_drawer : FeatureDrawer) (img : Image) (feature : MapFeature) :
    Except Err Image := do
  let destination_pixel ←
    get_destination_pixel map_features feature.destination coord_to_pixel
  feature_drawer feature (coord_to_pixel feature.coord) destination_pixel img

/-- Embedding of `draw_features`: fold the drawer over the features selected
by the filter, in list order. -/
def draw_features (map_features : List MapFeature) (coord_to_pixel : CoordToPixel)
    (feature_filter : MapFeature → Bool) (feature_drawer : FeatureDrawer)
    (img : Image) : Except Err Image :=
  (map_features.filter feature_filter).foldlM
    (drawStep map_features coord_to_pixel feature_drawer) img

/-- Embedding of `draw_spools`: a crosshair pass then a label pass over the
`Spool` features. -/
def draw_spools (cov : LineCov) (tcov : TextCov) (img : Image)
    (features : List MapFeature) (coord_to_pixel : CoordToPixel) :
    Except Err Image := do
  let i1 ← draw_features features coord_to_pixel (filter_for_type "Spool")
    (create_crosshair_drawer cov (255, 0, 0)) img
  draw_features features coord_to_pixel (filter_for_type "Spool")
    (create_label_drawer tcov (228, 228, 228)) i1

/-- Embedding of `draw_mats`: a crosshair pass then a label pass over the
`Mat` features. -/
def draw_mats (cov : LineCov) (tcov : TextCov) (img : Image)
    (features : List MapFeature) (coord_to_pixel : CoordToPixel) :
    Except Err Image := do
  let i1 ← draw_features features coord_to_pixel (filter_for_type "Mat")
    (create_crosshair_drawer cov (255, 0, 0)) img
  draw_features features coord_to_pixel (filter_for_type "Mat")
    (create_label_drawer tcov (228, 228, 228)) i1

/-- One iteration of the `draw_lines` loop over `feature_types`: draw the
line features of a single type onto the overlay. -/
def linesPass (cov : LineCov) (color : Color) (width : Int)
    (features : List MapFeature) (coord_to_pixel : CoordToPixel)
    (overlay : Image) (feature_type : String) : Except Err Image :=
  draw_features features coord_to_pixel (filter_for_line feature_type)
    (create_line_drawer cov color width) overlay

/-- Embedding of `draw_lines`: draw the selected line features of every type
in `feature_types` onto an overlay copy of the image at full opacity, then
blend the overlay back with weights `alpha` and `1 - alpha`. -/
def draw_lines (cov : LineCov) (img : Image) (features : List MapFeature)
    (coord_to_pixel : CoordToPixel) (feature_types : List String)
    (color : Color) (alpha : ℚ) (width : Int) : Except Err Image := do
  let overlay ← feature_types.foldlM
    (linesPass cov color width features coord_to_pixel) img
  pure (cvAddWeighted overlay alpha img (1 - alpha))

/-- Embedding of `draw_roads`: cyan road lines at 30 percent opacity,
width 20. -/
def draw_roads (cov : LineCov) (img : Image) (features : List MapFeature)
    (coord_to_pixel : CoordToPixel) : Except Err Image :=
  draw_lines cov img features coord_to_pixel ["Road"] (128, 128, 0) (0.30 : ℚ) 20

/-- Embedding of `draw_tent`: white tent lines at 50 percent opacity,
default width 4. -/
def draw_tent (cov : LineCov) (img : Image) (features : List MapFeature)
    (coord_to_pixel : CoordToPixel) : Except Err Image :=
  draw_lines cov img features coord_to_pixel ["Tent"] (255, 255, 255) (0.50 : ℚ) 4

/-- Embedding of `draw_electric_cords`: blue grid lines over the `Spool`,
`Source` and `Mat` types at 50 percent opacity, default width 4. -/
def draw_electric_cords (cov : LineCov) (img : Image) (features : List MapFeature)
    (coord_to_pixel : CoordToPixel) : Except Err Image :=
  draw_lines cov img features coord_to_pixel ["Spool", "Source", "Mat"]
    (255, 0, 0) (0.50 : ℚ) 4

/-- Embedding of `draw_all_features`: the five layers in the order of the
source, roads first and spools last. -/
def draw_all_features (cov : LineCov) (tcov : TextCov) (img : Image)
    (map_features : List MapFeature) (coord_to_pixel : CoordToPixel) :
    Except Err Image := do
  let i1 ← draw_roads cov img map_features coord_to_pixel
  let i2 ← draw_electric_cords cov i1 map_features coord_to_pixel
  let i3 ← draw_tent cov i2 map_features coord_to_pixel
  let i4 ← draw_mats cov tcov i3 map_features coord_to_pixel
  draw_spools cov tcov i4 map_features coord_to_pixel

/-- Embedding of `draw_map` (minus the external `cv2.imread`/`cv2.imwrite`
calls, which become the `img` argument and the returned image): filter the
catalogue to the requested map, look up the three calibration markers, build
the transform, and draw all features. -/
def draw_map (cov : LineCov) (tcov : TextCov) (catalogue : List MapFeature)
    (map_name : String) (img : Image) : Except Err Image := do
  let map_features := catalogue.filter (fun x => x.map_name == map_name)
  let e1 ← find_map_entry map_features (map_name ++ "_mark0")
  let e2 ← find_map_entry map_features (map_name ++ "_mark1")
  let b ← find_map_entry map_features (map_name ++ "_mark2")
  let map_coord_to_pixel ← compute_coord_to_pixel_function e1 e2 b
  draw_all_features cov tcov img map_features map_coord_to_pixel

/-- The static catalogue `MAP_FEATURES` of the source, entry for entry. -/
def MAP_FEATURES : List MapFeature := [
  mkMapFeature "map1_mark0" "Marker" 44.074086 (-80.837580) "map1" none none (some (1144, 560)),
  mkMapFeature "map1_mark1" "Marker" 44.075378 (-80.841208) "map1" none none (some (62, 26)),
  mkMapFeature "map1_mark2" "Marker" 44.073256 (-80.840810) "map1" none none (some (180, 905)),
  mkMapFeature "map2_mark0" "Marker" 44.075212 (-80.838710) "map2" none none (some (20, 665)),
  mkMapFeature "map2_mark1" "Marker" 44.075634 (-80.836970) "map2" none none (some (714, 432)),
  mkMapFeature "map2_mark2" "Marker" 44.075914 (-80.838481) "map2" none none (some (109, 272)),
  mkMapFeature "T0" "Tent" 44.074405 (-80.840559) "map1" (some "T3") none none,
  mkMapFeature "T1" "Tent" 44.074513 (-80.840593) "map1" (some "T0") none none,
  mkMapFeature "T2" "Tent" 44.074568 (-80.840197) "map1" (some "T1") none none,
  mkMapFeature "T3" "Tent" 44.074453 (-80.840174) "map1" (some "T2") none none,
  mkMapFeature "Post 1" "Source" 44.074123 (-80.839866) "map1" none none none,
  mkMapFeature "Post 2" "Source" 44.074317 (-80.839548) "map1" none none none,
  mkMapFeature "Post 3" "Source" 44.074534 (-80.839359) "map1" none none none,
  mkMapFeature "Rec" "Source" 44.074000 (-80.840586) "map1" none none none,
  mkMapFeature "RecTurn" "Source" 44.073910 (-80.840562) "map1" (some "Rec") none none,
  mkMapFeature "DevLand" "Source" 44.075484 (-80.838499) "map2" none none none,
  mkMapFeature "Washroom" "Source" 44.074229 (-80.841269) "map1" none none none,
  mkMapFeature "L1-L4" "Spool" 44.074388 (-80.840559) "map1" (some "Washroom") none none,
  mkMapFeature "L5" "Spool" 44.073819 (-80.840144) "map1" (some "RecTurn") (some 3) none,
  mkMapFeature "L6" "Spool" 44.074449 (-80.840571) "map1" (some "Washroom") (some 0) none,
  mkMapFeature "L7" "Spool" 44.076034 (-80.838061) "map2" (some "Mat0") (some 2) none,
  mkMapFeature "L8" "Spool" 44.075628 (-80.837688) "map2" (some "Mat3") (some 5) none,
  mkMapFeature "L9" "Spool" 44.073794 (-80.839826) "map1" (some "RecTurn") (some 5) none,
  mkMapFeature "L10" "Spool" 44.075617 (-80.837186) "map2" (some "L13") (some 6) none,
  mkMapFeature "L11" "Spool" 44.074678 (-80.839005) "map1" (some "Post 3") (some 6) none,
  mkMapFeature "L13" "Spool" 44.075422 (-80.837622) "map2" (some "Mat3") (some 4) none,
  mkMapFeature "L14" "Spool" 44.074679 (-80.839006) "map1" (some "Post 3") (some 0) none,
  mkMapFeature "L16" "Spool" 44.073448 (-80.839804) "map1" (some "L5") (some 6) none,
  mkMapFeature "L17" "Spool" 44.074730 (-80.838445) "map1" (some "L14") (some 6) none,
  mkMapFeature "L18" "Spool" 44.074076 (-80.839474) "map1" (some "Post 1") (some 6) none,
  mkMapFeature "L19" "Spool" 44.075393 (-80.837898) "map2" (some "Mat3") (some 3) none,
  mkMapFeature "L20" "Spool" 44.074476 (-80.839055) "map1" (some "Post 3") (some 5) none,
  mkMapFeature "L22" "Spool" 44.074370 (-80.839333) "map1" (some "Post 2") (some 4) none,
  mkMapFeature "UnB" "Spool" 44.075177 (-80.837342) "map2" (some "L19") (some 1) none,
  mkMapFeature "UnNB" "Spool" 44.075834 (-80.836807) "map2" (some "L8") (some 7) none,
  mkMapFeature "Mat0" "Mat" 44.075896 (-80.838303) "map2" (some "Mat1") none none,
  mkMapFeature "Mat1" "Mat" 44.075774 (-80.838389) "map2" (some "Mat2") none none,
  mkMapFeature "Mat2" "Mat" 44.075555 (-80.838434) "map2" (some "DevLand") none none,
  mkMapFeature "Mat3" "Mat" 44.075458 (-80.838376) "map2" (some "DevLand") none none,
  mkMapFeature "Mat4" "Mat" 44.074578 (-80.840731) "map1" none none none,
  mkMapFeature "Mat5" "Mat" 44.074298 (-80.841127) "map1" none none none,
  mkMapFeature "Mat6" "Mat" 44.073878 (-80.840530) "map1" none none none,
  mkMapFeature "RC0" "Road" 44.075122 (-80.838502) "map1" none none none,
  mkMapFeature "RC1" "Road" 44.074498 (-80.838752) "map1" (some "RC0") none none,
  mkMapFeature "RC2" "Road" 44.073886 (-80.839380) "map1" (some "RC1") none none,
  mkMapFeature "RC3" "Road" 44.073969 (-80.839934) "map1" (some "RC2") none none,
  mkMapFeature "RC4" "Road" 44.073790 (-80.840477) "map1" (some "RC3") none none]

/-- Extractor used by the concrete witnesses: the image inside a successful
render, or a black image on failure. -/
def getImage (r : Except Err Image) : Image :=
  match r with
  | .ok img => img
  | .error _ => fun _ => (0, 0, 0)

/-- Truncation toward zero as the specification describes it: the floor for
nonnegative values and the ceiling for negative ones. -/
def specTrunc (q : ℚ) : ℤ := if 0 ≤ q then ⌊q⌋ else ⌈q⌉

theorem truncToInt_nonneg (q : ℚ) (h : 0 ≤ q) : truncToInt q = ⌊q⌋ := by
  rw [truncToInt, Rat.floor_def]
  exact Int.tdiv_eq_ediv (Rat.num_nonneg.mpr h) (Int.ofNat_nonneg _)

theorem truncToInt_neg (q : ℚ) : truncToInt (-q) = -truncToInt q := by
  simp [truncToInt]

theorem truncToInt_eq_specTrunc (q : ℚ) : truncToInt q = specTrunc q := by
  unfold specTrunc
  split
  · exact truncToInt_nonneg q (by assumption)
  · have hq : q < 0 := lt_of_not_ge (by assumption)
    have h1 : truncToInt q = -truncToInt (-q) := by
      rw [truncToInt_neg, neg_neg]
    rw [h1, truncToInt_nonneg (-q) (by linarith), Int.floor_neg, neg_neg]

theorem truncToInt_intCast (n : ℤ) : truncToInt (n : ℚ) = n := by
  simp [truncToInt]

/-- Key linear-algebra fact behind calibration exactness: applying
`P * G⁻¹` to the first column of `G` recovers the first column of `P`,
provided `G` is invertible. -/
theorem Mat2.mul_inv_mulVec_col1 (P G : Mat2) (h : G.det ≠ 0) :
    (P.mul G.inv).mulVec (G.a, G.c) = (P.a, P.c) := by
  have hd : G.a * G.d - G.b * G.c ≠ 0 := h
  simp only [Mat2.mul, Mat2.inv, Mat2.mulVec, Mat2.det, Prod.mk.injEq]
  refine ⟨?_, ?_⟩ <;> (field_simp; ring)

/-- The same fact for the second column. -/
theorem Mat2.mul_inv_mulVec_col2 (P G : Mat2) (h : G.det ≠ 0) :
    (P.mul G.inv).mulVec (G.b, G.d) = (P.b, P.d) := by
  have hd : G.a * G.d - G.b * G.c ≠ 0 := h
  simp only [Mat2.mul, Mat2.inv, Mat2.mulVec, Mat2.det, Prod.mk.injEq]
  refine ⟨?_, ?_⟩ <;> (field_simp; ring)

/-- Extractor used by the concrete witnesses: the transform inside a
successful calibration, or the zero transform on failure. -/
def getCoordToPixel (r : Except Err CoordToPixel) : CoordToPixel :=
  match r with
  | .ok f => f
  | .error _ => fun _ => (0, 0)

theorem ok_bind {α β : Type} (a : α) (k : α → Except Err β) :
    (Except.ok a >>= k) = k a := rfl

theorem error_bind {α β : Type} (e : Err) (k : α → Except Err β) :
    ((Except.error e : Except Err α) >>= k) = Except.error e := rfl

theorem helper_at_basis (M : Mat2) (basis : MapFeature) (pb : Int × Int) :
    coord_to_pixel_helper basis.coord M basis pb = pb := by
  simp [coord_to_pixel_helper, Mat2.mulVec, truncToInt_intCast]

theorem helper_at_entry1 (entry1 entry2 basis : MapFeature) (p1 p2 pb : Int × Int)
    (hdet : (degMatrix entry1 entry2 basis).det ≠ 0) :
    coord_to_pixel_helper entry1.coord (calibMatrix entry1 entry2 basis p1 p2 pb)
      basis pb = p1 := by
  unfold coord_to_pixel_helper calibMatrix
  have hv : ((entry1.coord.1 - basis.coord.1, entry1.coord.2 - basis.coord.2) : Vec2) =
      ((degMatrix entry1 entry2 basis).a, (degMatrix entry1 entry2 basis).c) := rfl
  rw [hv, Mat2.mul_inv_mulVec_col1 _ _ hdet]
  show (truncToInt ((pixMatrix p1 p2 pb).a + (pb.1 : ℚ)),
        truncToInt ((pixMatrix p1 p2 pb).c + (pb.2 : ℚ))) = p1
  simp only [pixMatrix, sub_add_cancel, truncToInt_intCast]

theorem helper_at_entry2 (entry1 entry2 basis : MapFeature) (p1 p2 pb : Int × Int)
    (hdet : (degMatrix entry1 entry2 basis).det ≠ 0) :
    coord_to_pixel_helper entry2.coord (calibMatrix entry1 entry2 basis p1 p2 pb)
      basis pb = p2 := by
  unfold coord_to_pixel_helper calibMatrix
  have hv : ((entry2.coord.1 - basis.coord.1, entry2.coord.2 - basis.coord.2) : Vec2) =
      ((degMatrix entry1 entry2 basis).b, (degMatrix entry1 entry2 basis).d) := rfl
  rw [hv, Mat2.mul_inv_mulVec_col2 _ _ hdet]
  show (truncToInt ((pixMatrix p1 p2 pb).b + (pb.1 : ℚ)),
        truncToInt ((pixMatrix p1 p2 pb).d + (pb.2 : ℚ))) = p2
  simp only [pixMatrix, sub_add_cancel, truncToInt_intCast]

/-- C1.  For a non-degenerate calibration triple with integer pixel anchors,
the returned transform maps each of the three calibration coordinates exactly
to that feature's pixel anchor. -/
theorem calibration_exactness (entry1 entry2 basis : MapFeature)
    (p1 p2 pb : Int × Int)
    (h1 : entry1.pixel = some p1) (h2 : entry2.pixel = some p2)
    (hb : basis.pixel = some pb)
    (hdet : (degMatrix entry1 entry2 basis).det ≠ 0) :
    (compute_coord_to_pixel_function entry1 entry2 basis).map
      (fun f => (f basis.coord, f entry1.coord, f entry2.coord)) =
    .ok (pb, p1, p2) := by
  simp only [compute_coord_to_pixel_function, h1, h2, hb, if_neg hdet, Except.map]
  rw [helper_at_basis, helper_at_entry1 entry1 entry2 basis p1 p2 pb hdet,
    helper_at_entry2 entry1 entry2 basis p1 p2 pb hdet]

/-- First calibration marker of the specification's example scenario. -/
def wMark0 : MapFeature := mkMapFeature "w_mark0" "Marker" 1 0 "w" none none (some (100, 0))

/-- Second calibration marker of the specification's example scenario. -/
def wMark1 : MapFeature := mkMapFeature "w_mark1" "Marker" 0 1 "w" none none (some (0, 100))

/-- Basis calibration marker of the specification's example scenario. -/
def wMark2 : MapFeature := mkMapFeature "w_mark2" "Marker" 0 0 "w" none none (some (0, 0))

theorem wMark_det : (degMatrix wMark0 wMark1 wMark2).det ≠ 0 := by
  norm_num [degMatrix, Mat2.det, wMark0, wMark1, wMark2, mkMapFeature]

/-- Witness for C1 on the specification's example triple. -/
theorem calibration_exactness_witness :
    (compute_coord_to_pixel_function wMark0 wMark1 wMark2).map
      (fun f => (f wMark2.coord, f wMark0.coord, f wMark1.coord)) =
    .ok ((((0 : ℤ), (0 : ℤ)) : Pix), (((100 : ℤ), (0 : ℤ)) : Pix),
      (((0 : ℤ), (100 : ℤ)) : Pix)) :=
  calibration_exactness wMark0 wMark1 wMark2 (100, 0) (0, 100) (0, 0)
    rfl rfl rfl wMark_det

/-- C7.  The transform returned by calibration computes
`M · (coord − basis.coord) + basis.pixel` and converts each component to an
integer by truncation toward zero (floor on nonnegative values, ceiling on
negative ones), applied after the basis-pixel offset is added. -/
theorem transform_truncation (entry1 entry2 basis : MapFeature)
    (p1 p2 pb : Int × Int)
    (h1 : entry1.pixel = some p1) (h2 : entry2.pixel = some p2)
    (hb : basis.pixel = some pb) (f : CoordToPixel)
    (hok : compute_coord_to_pixel_function entry1 entry2 basis = .ok f)
    (coord : Vec2) :
    f coord =
      (specTrunc (((calibMatrix entry1 entry2 basis p1 p2 pb).mulVec
          (coord.1 - basis.coord.1, coord.2 - basis.coord.2)).1 + (pb.1 : ℚ)),
       specTrunc (((calibMatrix entry1 entry2 basis p1 p2 pb).mulVec
          (coord.1 - basis.coord.1, coord.2 - basis.coord.2)).2 + (pb.2 : ℚ))) := by
  simp only [compute_coord_to_pixel_function, h1, h2, hb] at hok
  by_cases hd : (degMatrix entry1 entry2 basis).det = 0
  · rw [if_pos hd] at hok
    exact absurd hok (by simp)
  · rw [if_neg hd] at hok
    have hf := Except.ok.inj hok
    rw [← hf]
    simp only [coord_to_pixel_helper, truncToInt_eq_specTrunc]

theorem compute_ok_of_det (entry1 entry2 basis : MapFeature) (p1 p2 pb : Int × Int)
    (h1 : entry1.pixel = some p1) (h2 : entry2.pixel = some p2)
    (hb : basis.pixel = some pb)
    (hdet : (degMatrix entry1 entry2 basis).det ≠ 0) :
    compute_coord_to_pixel_function entry1 entry2 basis =
      .ok (getCoordToPixel (compute_coord_to_pixel_function entry1 entry2 basis)) := by
  simp only [compute_coord_to_pixel_function, h1, h2, hb, if_neg hdet, getCoordToPixel]

theorem wMark_ok :
    compute_coord_to_pixel_function wMark0 wMark1 wMark2 =
      .ok (getCoordToPixel (compute_coord_to_pixel_function wMark0 wMark1 wMark2)) :=
  compute_ok_of_det wMark0 wMark1 wMark2 (100, 0) (0, 100) (0, 0) rfl rfl rfl wMark_det

/-- Witness for C7 at the coordinate `(1/2, 1/2)` of the example triple. -/
theorem transform_truncation_witness :
    getCoordToPixel (compute_coord_to_pixel_function wMark0 wMark1 wMark2)
        (1/2, 1/2) =
      (specTrunc (((calibMatrix wMark0 wMark1 wMark2 (100, 0) (0, 100) (0, 0)).mulVec
          ((1/2 : ℚ) - wMark2.coord.1, (1/2 : ℚ) - wMark2.coord.2)).1 + ((0 : ℤ) : ℚ)),
       specTrunc (((calibMatrix wMark0 wMark1 wMark2 (100, 0) (0, 100) (0, 0)).mulVec
          ((1/2 : ℚ) - wMark2.coord.1, (1/2 : ℚ) - wMark2.coord.2)).2 + ((0 : ℤ) : ℚ))) :=
  transform_truncation wMark0 wMark1 wMark2 (100, 0) (0, 100) (0, 0)
    rfl rfl rfl _ wMark_ok (1/2, 1/2)

/-- Linear dependence of the two geographic displacement vectors makes the
degree matrix singular. -/
theorem det_eq_zero_of_dep (e1 e2 b : MapFeature)
    (hdep : ∃ s t : ℚ, (s ≠ 0 ∨ t ≠ 0) ∧
      s * (e1.coord.1 - b.coord.1) + t * (e2.coord.1 - b.coord.1) = 0 ∧
      s * (e1.coord.2 - b.coord.2) + t * (e2.coord.2 - b.coord.2) = 0) :
    (degMatrix e1 e2 b).det = 0 := by
  obtain ⟨s, t, hst, hx, hy⟩ := hdep
  have hs : s * (degMatrix e1 e2 b).det = 0 := by
    simp only [degMatrix, Mat2.det]
    linear_combination (e2.coord.2 - b.coord.2) * hx - (e2.coord.1 - b.coord.1) * hy
  have ht : t * (degMatrix e1 e2 b).det = 0 := by
    simp only [degMatrix, Mat2.det]
    linear_combination (e1.coord.1 - b.coord.1) * hy - (e1.coord.2 - b.coord.2) * hx
  rcases hst with hs0 | ht0
  · exact (mul_eq_zero.mp hs).resolve_left hs0
  · exact (mul_eq_zero.mp ht).resolve_left ht0

/-- C2.  A calibration triple whose two geographic displacement vectors are
linearly dependent fails with the distinguishable `LinAlgError`, and this
error surfaces as the result of the whole `draw_map` run: no transform is
returned and no drawing takes place. -/
theorem degenerate_calibration_fails (cov : LineCov) (tcov : TextCov)
    (catalogue : List MapFeature) (map_name : String) (img : Image)
    (e1 e2 b : MapFeature) (p1 p2 pb : Int × Int)
    (hm0 : find_map_entry (catalogue.filter (fun x => x.map_name == map_name))
      (map_name ++ "_mark0") = .ok e1)
    (hm1 : find_map_entry (catalogue.filter (fun x => x.map_name == map_name))
      (map_name ++ "_mark1") = .ok e2)
    (hm2 : find_map_entry (catalogue.filter (fun x => x.map_name == map_name))
      (map_name ++ "_mark2") = .ok b)
    (h1 : e1.pixel = some p1) (h2 : e2.pixel = some p2) (hb : b.pixel = some pb)
    (hdep : ∃ s t : ℚ, (s ≠ 0 ∨ t ≠ 0) ∧
      s * (e1.coord.1 - b.coord.1) + t * (e2.coord.1 - b.coord.1) = 0 ∧
      s * (e1.coord.2 - b.coord.2) + t * (e2.coord.2 - b.coord.2) = 0) :
    compute_coord_to_pixel_function e1 e2 b = .error .linAlgError ∧
    draw_map cov tcov catalogue map_name img = .error .linAlgError := by
  have hdet := det_eq_zero_of_dep e1 e2 b hdep
  have hcomp : compute_coord_to_pixel_function e1 e2 b = .error .linAlgError := by
    simp only [compute_coord_to_pixel_function, h1, h2, hb, if_pos hdet]
  refine ⟨hcomp, ?_⟩
  simp only [draw_map, hm0, hm1, hm2, ok_bind, hcomp, error_bind]

/-- First marker of the degenerate witness triple, at `(1, 1)`. -/
def dgMark0 : MapFeature :=
  mkMapFeature "d_mark0" "Marker" 1 1 "d" none none (some (10, 10))

/-- Second marker of the degenerate witness triple, at `(2, 2)`: collinear
with the other two. -/
def dgMark1 : MapFeature :=
  mkMapFeature "d_mark1" "Marker" 2 2 "d" none none (some (20, 20))

/-- Basis marker of the degenerate witness triple, at the origin. -/
def dgMark2 : MapFeature :=
  mkMapFeature "d_mark2" "Marker" 0 0 "d" none none (some (0, 0))

theorem except_map_ok {α β : Type} (f : α → β) (a : α) :
    (Except.ok a : Except Err α).map f = .ok (f a) := rfl

theorem isOk_ok {α : Type} (a : α) : (Except.ok a : Except Err α).isOk = true := rfl

theorem isOk_error {α : Type} (e : Err) :
    (Except.error e : Except Err α).isOk = false := rfl

theorem pure_eq_ok {α : Type} (a : α) : (pure a : Except Err α) = Except.ok a := rfl

theorem except_map_error {α β : Type} (f : α → β) (e : Err) :
    (Except.error e : Except Err α).map f = .error e := rfl

theorem find_map_entry_not_found (features : List MapFeature) (d : String)
    (h : ∀ g ∈ features, g.name ≠ d) :
    find_map_entry features d =
      .error (.notFound ("Map Feature " ++ d ++ " not found")) := by
  unfold find_map_entry
  rw [List.find?_eq_none.mpr (by simpa using h)]

theorem find_map_entry_isOk (features : List MapFeature) (d : String)
    (h : ∃ g ∈ features, g.name = d) : ∃ g, find_map_entry features d = .ok g := by
  unfold find_map_entry
  have hs : (features.find? (fun feature => feature.name == d)).isSome = true :=
    List.find?_isSome.mpr (by simpa using h)
  cases hfind : features.find? (fun feature => feature.name == d) with
  | none => rw [hfind] at hs; simp at hs
  | some g => exact ⟨g, rfl⟩

theorem gdp_ok_of_find (features : List MapFeature) (ctp : CoordToPixel)
    (d : String) (g : MapFeature) (hne : d ≠ "")
    (hfind : find_map_entry features d = .ok g) :
    get_destination_pixel features (some d) ctp = .ok (some (ctp g.coord)) := by
  simp only [get_destination_pixel, if_neg hne, hfind, except_map_ok]

theorem gdp_ok_some_form (features : List MapFeature) (ctp : CoordToPixel)
    (dest : Option String) (q : Pix)
    (h : get_destination_pixel features dest ctp = .ok (some q)) :
    ∃ d g, dest = some d ∧ d ≠ "" ∧ find_map_entry features d = .ok g ∧
      q = ctp g.coord := by
  cases dest with
  | none => exact absurd h (by simp [get_destination_pixel])
  | some d =>
    by_cases hd : d = ""
    · rw [get_destination_pixel, if_pos hd] at h
      exact absurd h (by simp)
    · rw [get_destination_pixel, if_neg hd] at h
      cases hfind : find_map_entry features d with
      | error e => rw [hfind, except_map_error] at h; exact absurd h (by simp)
      | ok g =>
        rw [hfind, except_map_ok] at h
        have hq := Option.some.inj (Except.ok.inj h)
        exact ⟨d, g, rfl, hd, hfind, hq.symm⟩

theorem foldlM_drawStep_writes (features : List MapFeature) (ctp : CoordToPixel)
    (dr : FeatureDrawer) (x : Pix) (c : Color)
    (hw : ∀ f p dp im out2, dr f p dp im = .ok out2 →
      out2 x = c ∨ out2 x = im x)
    (l : List MapFeature) :
    ∀ (img out : Image), l.foldlM (drawStep features ctp dr) img = .ok out →
      img x = c → out x = c := by
  induction l with
  | nil =>
    intro img out h hc
    rw [List.foldlM_nil] at h
    rw [← Except.ok.inj h, hc]
  | cons h t ih =>
    intro img out hfold hc
    rw [List.foldlM_cons] at hfold
    cases hg : get_destination_pixel features h.destination ctp with
    | error e =>
      simp only [drawStep, hg, error_bind] at hfold
      exact absurd hfold (by simp)
    | ok dp =>
      simp only [drawStep, hg, ok_bind] at hfold
      cases hd2 : dr h (ctp h.coord) dp img with
      | error e =>
        rw [hd2, error_bind] at hfold
        exact absurd hfold (by simp)
      | ok mid =>
        rw [hd2, ok_bind] at hfold
        refine ih _ _ hfold ?_
        rcases hw h (ctp h.coord) dp img mid hd2 with hcw | hpr
        · exact hcw
        · rw [hpr, hc]

theorem foldlM_drawStep_sets (features : List MapFeature) (ctp : CoordToPixel)
    (dr : FeatureDrawer) (x : Pix) (c : Color)
    (hw : ∀ f p dp im out2, dr f p dp im = .ok out2 →
      out2 x = c ∨ out2 x = im x)
    (f0 : MapFeature)
    (hset : ∀ dp im out2,
      get_destination_pixel features f0.destination ctp = .ok dp →
      dr f0 (ctp f0.coord) dp im = .ok out2 → out2 x = c)
    (l : List MapFeature) :
    ∀ (img out : Image), f0 ∈ l →
      l.foldlM (drawStep features ctp dr) img = .ok out → out x = c := by
  induction l with
  | nil => intro img out hmem; exact absurd hmem (by simp)
  | cons h t ih =>
    intro img out hmem hfold
    rw [List.foldlM_cons] at hfold
    cases hg : get_destination_pixel features h.destination ctp with
    | error e =>
      simp only [drawStep, hg, error_bind] at hfold
      exact absurd hfold (by simp)
    | ok dp =>
      simp only [drawStep, hg, ok_bind] at hfold
      cases hd2 : dr h (ctp h.coord) dp img with
      | error e =>
        rw [hd2, error_bind] at hfold
        exact absurd hfold (by simp)
      | ok mid =>
        rw [hd2, ok_bind] at hfold
        rcases List.mem_cons.mp hmem with rfl | hft
        · exact foldlM_drawStep_writes features ctp dr x c hw t _ _ hfold
            (hset dp img mid hg hd2)
        · exact ih _ _ hft hfold

theorem foldlM_drawStep_frame (features : List MapFeature) (ctp : CoordToPixel)
    (dr : FeatureDrawer) (x : Pix) (l : List MapFeature)
    (hpres : ∀ f ∈ l, ∀ dp im out2,
      get_destination_pixel features f.destination ctp = .ok dp →
      dr f (ctp f.coord) dp im = .ok out2 → out2 x = im x) :
    ∀ (img out : Image), l.foldlM (drawStep features ctp dr) img = .ok out →
      out x = img x := by
  induction l with
  | nil =>
    intro img out h
    rw [List.foldlM_nil] at h
    rw [← Except.ok.inj h]
  | cons h t ih =>
    intro img out hfold
    rw [List.foldlM_cons] at hfold
    cases hg : get_destination_pixel features h.destination ctp with
    | error e =>
      simp only [drawStep, hg, error_bind] at hfold
      exact absurd hfold (by simp)
    | ok dp =>
      simp only [drawStep, hg, ok_bind] at hfold
      cases hd2 : dr h (ctp h.coord) dp img with
      | error e =>
        rw [hd2, error_bind] at hfold
        exact absurd hfold (by simp)
      | ok mid =>
        rw [hd2, ok_bind] at hfold
        have hstep : mid x = img x := hpres h (by simp) dp img mid hg hd2
        rw [ih (fun f hf => hpres f (List.mem_cons_of_mem _ hf)) _ _ hfold,
          hstep]

/-- Renders either succeed or fail with the one designated error. -/
def okOrE (r : Except Err Image) (e : Err) : Prop :=
  (∃ im, r = .ok im) ∨ r = .error e

theorem bind_okOrE (r : Except Err Image) (k : Image → Except Err Image) (e : Err)
    (hr : okOrE r e) (hk : ∀ im, okOrE (k im) e) : okOrE (r >>= k) e := by
  rcases hr with ⟨im, him⟩ | herr
  · rw [him, ok_bind]; exact hk im
  · rw [herr, error_bind]; exact Or.inr rfl

theorem bind_hitsE_left (r : Except Err Image) (k : Image → Except Err Image)
    (e : Err) (hr : r = .error e) : (r >>= k) = .error e := by
  rw [hr, error_bind]

theorem bind_hitsE_right (r : Except Err Image) (k : Image → Except Err Image)
    (e : Err) (hr : okOrE r e) (hk : ∀ im, k im = .error e) :
    (r >>= k) = .error e := by
  rcases hr with ⟨im, him⟩ | herr
  · rw [him, ok_bind]; exact hk im
  · rw [herr, error_bind]

theorem foldlM_drawStep_okOrE (features : List MapFeature) (ctp : CoordToPixel)
    (dr : FeatureDrawer) (e : Err) (l : List MapFeature)
    (hall : ∀ f ∈ l, (∃ v, get_destination_pixel features f.destination ctp = .ok v) ∨
      get_destination_pixel features f.destination ctp = .error e)
    (hdr : ∀ f ∈ l, ∀ dp im,
      get_destination_pixel features f.destination ctp = .ok dp →
      ∃ out, dr f (ctp f.coord) dp im = .ok out) :
    ∀ img, okOrE (l.foldlM (drawStep features ctp dr) img) e := by
  induction l with
  | nil =>
    intro img
    rw [List.foldlM_nil, pure_eq_ok]
    exact Or.inl ⟨img, rfl⟩
  | cons h t ih =>
    intro img
    rw [List.foldlM_cons]
    rcases hall h (by simp) with ⟨v, hv⟩ | herr
    · obtain ⟨out, hout⟩ := hdr h (by simp) v img hv
      simp only [drawStep, hv, ok_bind]
      rw [hout, ok_bind]
      exact ih (fun f hf => hall f (List.mem_cons_of_mem _ hf))
        (fun f hf => hdr f (List.mem_cons_of_mem _ hf)) _
    · simp only [drawStep, herr, error_bind]
      exact Or.inr rfl

theorem foldlM_drawStep_hitsE (features : List MapFeature) (ctp : CoordToPixel)
    (dr : FeatureDrawer) (e : Err) (l : List MapFeature)
    (hall : ∀ f ∈ l, (∃ v, get_destination_pixel features f.destination ctp = .ok v) ∨
      get_destination_pixel features f.destination ctp = .error e)
    (hdr : ∀ f ∈ l, ∀ dp im,
      get_destination_pixel features f.destination ctp = .ok dp →
      ∃ out, dr f (ctp f.coord) dp im = .ok out)
    (f0 : MapFeature) (hf0 : f0 ∈ l)
    (hfe : get_destination_pixel features f0.destination ctp = .error e) :
    ∀ img, l.foldlM (drawStep features ctp dr) img = .error e := by
  induction l with
  | nil => exact absurd hf0 (by simp)
  | cons h t ih =>
    intro img
    rw [List.foldlM_cons]
    rcases List.mem_cons.mp hf0 with rfl | hft
    · simp only [drawStep, hfe, error_bind]
    · rcases hall h (by simp) with ⟨v, hv⟩ | herr
      · obtain ⟨out, hout⟩ := hdr h (by simp) v img hv
        simp only [drawStep, hv, ok_bind]
        rw [hout, ok_bind]
        exact ih (fun f hf => hall f (List.mem_cons_of_mem _ hf))
          (fun f hf => hdr f (List.mem_cons_of_mem _ hf)) hft _
      · simp only [drawStep, herr, error_bind]

theorem draw_features_okOrE (features : List MapFeature) (ctp : CoordToPixel)
    (filt : MapFeature → Bool) (dr : FeatureDrawer) (e : Err) (img : Image)
    (hall : ∀ f ∈ features,
      (∃ v, get_destination_pixel features f.destination ctp = .ok v) ∨
      get_destination_pixel features f.destination ctp = .error e)
    (hdr : ∀ f ∈ features, filt f = true → ∀ dp im,
      get_destination_pixel features f.destination ctp = .ok dp →
      ∃ out, dr f (ctp f.coord) dp im = .ok out) :
    okOrE (draw_features features ctp filt dr img) e :=
  foldlM_drawStep_okOrE features ctp dr e (features.filter filt)
    (fun f hf => hall f (List.mem_filter.mp hf).1)
    (fun f hf => hdr f (List.mem_filter.mp hf).1 (List.mem_filter.mp hf).2) img

theorem draw_features_hitsE (features : List MapFeature) (ctp : CoordToPixel)
    (filt : MapFeature → Bool) (dr : FeatureDrawer) (e : Err) (img : Image)
    (hall : ∀ f ∈ features,
      (∃ v, get_destination_pixel features f.destination ctp = .ok v) ∨
      get_destination_pixel features f.destination ctp = .error e)
    (hdr : ∀ f ∈ features, filt f = true → ∀ dp im,
      get_destination_pixel features f.destination ctp = .ok dp →
      ∃ out, dr f (ctp f.coord) dp im = .ok out)
    (f0 : MapFeature) (hf0 : f0 ∈ features) (hfilt : filt f0 = true)
    (hfe : get_destination_pixel features f0.destination ctp = .error e) :
    draw_features features ctp filt dr img = .error e :=
  foldlM_drawStep_hitsE features ctp dr e (features.filter filt)
    (fun f hf => hall f (List.mem_filter.mp hf).1)
    (fun f hf => hdr f (List.mem_filter.mp hf).1 (List.mem_filter.mp hf).2)
    f0 (List.mem_filter.mpr ⟨hf0, hfilt⟩) hfe img

theorem filter_for_line_type (t : String) (f : MapFeature)
    (h : filter_for_line t f = true) : f.type = t :=
  beq_iff_eq.mp (Bool.and_eq_true _ _ |>.mp h).1

theorem filter_for_line_isSome (t : String) (f : MapFeature)
    (h : filter_for_line t f = true) : f.destination.isSome = true :=
  (Bool.and_eq_true _ _ |>.mp h).2

/-- A line drawer succeeds on every destination pixel the pipeline hands it,
provided the feature passed `filter_for_line` and its destination is not the
empty string: the resolved destination is then always `some` pixel. -/
theorem line_drawer_succeeds (cov : LineCov) (color : Color) (width : Int)
    (features : List MapFeature) (ctp : CoordToPixel) (f : MapFeature)
    (t : String) (hfilt : filter_for_line t f = true)
    (hemp : f.destination ≠ some "") (dp : Option Pix) (im : Image)
    (hdp : get_destination_pixel features f.destination ctp = .ok dp) :
    ∃ out, create_line_drawer cov color width f (ctp f.coord) dp im = .ok out := by
  obtain ⟨d, hd⟩ := Option.isSome_iff_exists.mp (filter_for_line_isSome t f hfilt)
  have hdne : d ≠ "" := by
    intro hcon
    exact hemp (by rw [hd, hcon])
  rw [hd, get_destination_pixel, if_neg hdne] at hdp
  cases hfind : find_map_entry features d with
  | error e =>
    rw [hfind, except_map_error] at hdp
    exact absurd hdp (by simp)
  | ok g =>
    rw [hfind, except_map_ok] at hdp
    rw [← Except.ok.inj hdp]
    exact ⟨_, rfl⟩

theorem linesFold_okOrE (cov : LineCov) (color : Color) (width : Int)
    (features : List MapFeature) (ctp : CoordToPixel) (e : Err)
    (types : List String)
    (hall : ∀ f ∈ features,
      (∃ v, get_destination_pixel features f.destination ctp = .ok v) ∨
      get_destination_pixel features f.destination ctp = .error e)
    (hemp : ∀ f ∈ features, ∀ t ∈ types, filter_for_line t f = true →
      f.destination ≠ some "") :
    ∀ img, okOrE (types.foldlM (linesPass cov color width features ctp) img) e := by
  induction types with
  | nil =>
    intro img
    rw [List.foldlM_nil, pure_eq_ok]
    exact Or.inl ⟨img, rfl⟩
  | cons t ts ih =>
    intro img
    rw [List.foldlM_cons]
    have hok := draw_features_okOrE features ctp (filter_for_line t)
      (create_line_drawer cov color width) e img hall
      (fun f hf hfl dp im hdp => line_drawer_succeeds cov color width features
        ctp f t hfl (hemp f hf t (by simp) hfl) dp im hdp)
    rcases hok with ⟨im, him⟩ | herr
    · rw [show linesPass cov color width features ctp img t =
          draw_features features ctp (filter_for_line t)
            (create_line_drawer cov color width) img from rfl, him, ok_bind]
      exact ih (fun f hf t2 ht2 => hemp f hf t2 (List.mem_cons_of_mem _ ht2)) _
    · rw [show linesPass cov color width features ctp img t =
          draw_features features ctp (filter_for_line t)
            (create_line_drawer cov color width) img from rfl, herr, error_bind]
      exact Or.inr rfl

theorem linesFold_hitsE (cov : LineCov) (color : Color) (width : Int)
    (features : List MapFeature) (ctp : CoordToPixel) (e : Err)
    (types : List String)
    (hall : ∀ f ∈ features,
      (∃ v, get_destination_pixel features f.destination ctp = .ok v) ∨
      get_destination_pixel features f.destination ctp = .error e)
    (hemp : ∀ f ∈ features, ∀ t ∈ types, filter_for_line t f = true →
      f.destination ≠ some "")
    (t0 : String) (ht0 : t0 ∈ types) (f0 : MapFeature) (hf0 : f0 ∈ features)
    (hfilt : filter_for_line t0 f0 = true)
    (hfe : get_destination_pixel features f0.destination ctp = .error e) :
    ∀ img, types.foldlM (linesPass cov color width features ctp) img = .error e := by
  induction types with
  | nil => exact absurd ht0 (by simp)
  | cons t ts ih =>
    intro img
    rw [List.foldlM_cons]
    rcases List.mem_cons.mp ht0 with rfl | hts
    · exact bind_hitsE_left _ _ _
        (draw_features_hitsE features ctp (filter_for_line t0)
          (create_line_drawer cov color width) e img hall
          (fun f hf hfl dp im hdp => line_drawer_succeeds cov color width
            features ctp f t0 hfl (hemp f hf t0 (by simp) hfl) dp im hdp)
          f0 hf0 hfilt hfe)
    · refine bind_hitsE_right _ _ _ ?_
        (fun im => ih (fun f hf t2 ht2 => hemp f hf t2 (List.mem_cons_of_mem _ ht2))
          hts im)
      exact draw_features_okOrE features ctp (filter_for_line t)
        (create_line_drawer cov color width) e img hall
        (fun f hf hfl dp im hdp => line_drawer_succeeds cov color width features
          ctp f t hfl (hemp f hf t (by simp) hfl) dp im hdp)

theorem draw_lines_okOrE (cov : LineCov) (img : Image)
    (features : List MapFeature) (ctp : CoordToPixel) (types : List String)
    (color : Color) (alpha : ℚ) (width : Int) (e : Err)
    (hall : ∀ f ∈ features,
      (∃ v, get_destination_pixel features f.destination ctp = .ok v) ∨
      get_destination_pixel features f.destination ctp = .error e)
    (hemp : ∀ f ∈ features, ∀ t ∈ types, filter_for_line t f = true →
      f.destination ≠ some "") :
    okOrE (draw_lines cov img features ctp types color alpha width) e := by
  unfold draw_lines
  exact bind_okOrE _ _ e
    (linesFold_okOrE cov color width features ctp e types hall hemp img)
    (fun im => Or.inl ⟨_, rfl⟩)

theorem draw_lines_hitsE (cov : LineCov) (img : Image)
    (features : List MapFeature) (ctp : CoordToPixel) (types : List String)
    (color : Color) (alpha : ℚ) (width : Int) (e : Err)
    (hall : ∀ f ∈ features,
      (∃ v, get_destination_pixel features f.destination ctp = .ok v) ∨
      get_destination_pixel features f.destination ctp = .error e)
    (hemp : ∀ f ∈ features, ∀ t ∈ types, filter_for_line t f = true →
      f.destination ≠ some "")
    (t0 : String) (ht0 : t0 ∈ types) (f0 : MapFeature) (hf0 : f0 ∈ features)
    (hfilt : filter_for_line t0 f0 = true)
    (hfe : get_destination_pixel features f0.destination ctp = .error e) :
    draw_lines cov img features ctp types color alpha width = .error e := by
  unfold draw_lines
  exact bind_hitsE_left _ _ _
    (linesFold_hitsE cov color width features ctp e types hall hemp t0 ht0
      f0 hf0 hfilt hfe img)

theorem gdp_error_of_missing (features : List MapFeature) (ctp : CoordToPixel)
    (d : String) (hne : d ≠ "") (hmiss : ∀ g ∈ features, g.name ≠ d) :
    get_destination_pixel features (some d) ctp =
      .error (.notFound ("Map Feature " ++ d ++ " not found")) := by
  simp only [get_destination_pixel, if_neg hne,
    find_map_entry_not_found features d hmiss, except_map_error]

theorem hall_of_uniq (features : List MapFeature) (ctp : CoordToPixel)
    (d : String) (hne : d ≠ "") (hmiss : ∀ g ∈ features, g.name ≠ d)
    (huniq : ∀ g ∈ features, ∀ d2, g.destination = some d2 → d2 ≠ "" →
      (∃ h2 ∈ features, h2.name = d2) ∨ d2 = d) :
    ∀ g ∈ features,
      (∃ v, get_destination_pixel features g.destination ctp = .ok v) ∨
      get_destination_pixel features g.destination ctp =
        .error (.notFound ("Map Feature " ++ d ++ " not found")) := by
  intro g hg
  cases hgd : g.destination with
  | none => exact Or.inl ⟨none, by simp [get_destination_pixel]⟩
  | some d2 =>
    by_cases h2 : d2 = ""
    · exact Or.inl ⟨none, by simp [get_destination_pixel, if_pos h2]⟩
    · rcases huniq g hg d2 hgd h2 with hres | rfl
      · obtain ⟨gg, hfind⟩ := find_map_entry_isOk features d2 hres
        exact Or.inl ⟨some (ctp gg.coord), gdp_ok_of_find features ctp d2 gg h2 hfind⟩
      · exact Or.inr (gdp_error_of_missing features ctp d2 h2 hmiss)

/-- The feature types that some layer of `draw_all_features` draws. -/
def drawnTypes : List String := ["Road", "Tent", "Spool", "Source", "Mat"]

/-- C3 (amended).  A feature of a drawn type whose destination name resolves
to no feature of the map aborts the whole render with the `assert` message
naming the missing destination, provided that name is the only unresolved
one and no drawn-type feature carries the empty string as destination (such
a feature skips the lookup but then crashes `cv2.line` with a `None`
endpoint — a different fatal error); no image is produced. -/
theorem unresolved_destination_aborts (cov : LineCov) (tcov : TextCov)
    (img : Image) (features : List MapFeature) (ctp : CoordToPixel)
    (f : MapFeature) (d : String)
    (hf : f ∈ features) (htype : f.type ∈ drawnTypes)
    (hd : f.destination = some d) (hne : d ≠ "")
    (hmiss : ∀ g ∈ features, g.name ≠ d)
    (hempty : ∀ g ∈ features, g.type ∈ drawnTypes → g.destination ≠ some "")
    (huniq : ∀ g ∈ features, ∀ d2, g.destination = some d2 → d2 ≠ "" →
      (∃ h2 ∈ features, h2.name = d2) ∨ d2 = d) :
    draw_all_features cov tcov img features ctp =
      .error (.notFound ("Map Feature " ++ d ++ " not found")) := by
  set e := Err.notFound ("Map Feature " ++ d ++ " not found") with he
  have hall := hall_of_uniq features ctp d hne hmiss huniq
  have hemp2 : ∀ (ts : List String), (∀ t ∈ ts, t ∈ drawnTypes) →
      ∀ g ∈ features, ∀ t ∈ ts, filter_for_line t g = true →
      g.destination ≠ some "" := by
    intro ts hts g hg t ht hfl
    refine hempty g hg ?_
    rw [filter_for_line_type t g hfl]
    exact hts t ht
  have hfe : get_destination_pixel features f.destination ctp = .error e := by
    rw [hd]; exact gdp_error_of_missing features ctp d hne hmiss
  have hline : ∀ t0, f.type = t0 → filter_for_line t0 f = true := by
    intro t0 ht0
    simp [filter_for_line, ht0, hd]
  unfold draw_all_features
  simp only [drawnTypes, List.mem_cons, List.not_mem_nil, or_false] at htype
  rcases htype with hRoad | hTent | hSpool | hSource | hMat
  · exact bind_hitsE_left _ _ _
      (draw_lines_hitsE cov img features ctp ["Road"] (128, 128, 0) (0.30 : ℚ) 20 e
        hall (hemp2 ["Road"] (by decide)) "Road" (by simp) f hf
        (hline "Road" hRoad) hfe)
  · refine bind_hitsE_right _ _ _
      (draw_lines_okOrE cov img features ctp ["Road"] (128, 128, 0) (0.30 : ℚ) 20 e
        hall (hemp2 ["Road"] (by decide)))
      (fun i1 => ?_)
    refine bind_hitsE_right _ _ _
      (draw_lines_okOrE cov i1 features ctp ["Spool", "Source", "Mat"]
        (255, 0, 0) (0.50 : ℚ) 4 e hall
        (hemp2 ["Spool", "Source", "Mat"] (by decide)))
      (fun i2 => ?_)
    exact bind_hitsE_left _ _ _
      (draw_lines_hitsE cov i2 features ctp ["Tent"] (255, 255, 255) (0.50 : ℚ) 4 e
        hall (hemp2 ["Tent"] (by decide)) "Tent" (by simp) f hf
        (hline "Tent" hTent) hfe)
  · refine bind_hitsE_right _ _ _
      (draw_lines_okOrE cov img features ctp ["Road"] (128, 128, 0) (0.30 : ℚ) 20 e
        hall (hemp2 ["Road"] (by decide)))
      (fun i1 => ?_)
    exact bind_hitsE_left _ _ _
      (draw_lines_hitsE cov i1 features ctp ["Spool", "Source", "Mat"]
        (255, 0, 0) (0.50 : ℚ) 4 e hall
        (hemp2 ["Spool", "Source", "Mat"] (by decide)) "Spool" (by simp) f hf
        (hline "Spool" hSpool) hfe)
  · refine bind_hitsE_right _ _ _
      (draw_lines_okOrE cov img features ctp ["Road"] (128, 128, 0) (0.30 : ℚ) 20 e
        hall (hemp2 ["Road"] (by decide)))
      (fun i1 => ?_)
    exact bind_hitsE_left _ _ _
      (draw_lines_hitsE cov i1 features ctp ["Spool", "Source", "Mat"]
        (255, 0, 0) (0.50 : ℚ) 4 e hall
        (hemp2 ["Spool", "Source", "Mat"] (by decide)) "Source" (by simp) f hf
        (hline "Source" hSource) hfe)
  · refine bind_hitsE_right _ _ _
      (draw_lines_okOrE cov img features ctp ["Road"] (128, 128, 0) (0.30 : ℚ) 20 e
        hall (hemp2 ["Road"] (by decide)))
      (fun i1 => ?_)
    exact bind_hitsE_left _ _ _
      (draw_lines_hitsE cov i1 features ctp ["Spool", "Source", "Mat"]
        (255, 0, 0) (0.50 : ℚ) 4 e hall
        (hemp2 ["Spool", "Source", "Mat"] (by decide)) "Mat" (by simp) f hf
        (hline "Mat" hMat) hfe)

/-- Rasteriser instance that covers no pixel; used by the concrete witnesses. -/
def covFalse : LineCov := fun _ _ _ _ => false

/-- Rasteriser instance that covers every pixel; used by the concrete
witnesses. -/
def covTrue : LineCov := fun _ _ _ _ => true

/-- Text rasteriser instance that covers every pixel. -/
def tcovTrue : TextCov := fun _ _ _ => true

/-- The all-black base image of the concrete witnesses. -/
def blackImage : Image := fun _ => (0, 0, 0)

/-- The constant transform of the concrete witnesses. -/
def originCtp : CoordToPixel := fun _ => (0, 0)

/-- A feature of a type no layer draws, with a dangling destination. -/
def ghostMarker : MapFeature :=
  mkMapFeature "G" "Marker" 0 0 "g" (some "ghost") none none

/-- A spool with a dangling destination. -/
def ghostSpool : MapFeature :=
  mkMapFeature "S" "Spool" 0 0 "g" (some "ghost") none none

/-- C3 (counterexample).  A feature whose type no layer selects (here a
`Marker`) can carry a destination name that matches no feature, yet the
render succeeds: the dangling reference is silently ignored, refuting the
claim for arbitrary features. -/
theorem marker_ghost_destination_ignored :
    ghostMarker.destination = some "ghost" ∧
    (∀ g ∈ [ghostMarker], g.name ≠ "ghost") ∧
    (draw_all_features covFalse tcovTrue blackImage [ghostMarker]
      originCtp).isOk = true := by
  refine ⟨rfl, ?_, rfl⟩
  intro g hg
  rw [List.mem_singleton] at hg
  subst hg
  decide

/-- Witness for C3 (amended) on a one-spool catalogue with a dangling
destination. -/
theorem unresolved_destination_aborts_witness :
    draw_all_features covFalse tcovTrue blackImage [ghostSpool] originCtp =
      .error (.notFound "Map Feature ghost not found") :=
  unresolved_destination_aborts covFalse tcovTrue blackImage [ghostSpool]
    originCtp ghostSpool "ghost" (by simp) (by decide) rfl (by decide)
    (by intro g hg; rw [List.mem_singleton] at hg; subst hg; decide)
    (by intro g hg ht2; rw [List.mem_singleton] at hg; subst hg; decide)
    (by
      intro g hg d2 hgd hne2
      rw [List.mem_singleton] at hg
      subst hg
      exact Or.inr (Option.some.inj hgd).symm)

theorem draw_features_writes (features : List MapFeature) (ctp : CoordToPixel)
    (filt : MapFeature → Bool) (dr : FeatureDrawer) (x : Pix) (c : Color)
    (hw : ∀ f p dp im out2, dr f p dp im = .ok out2 →
      out2 x = c ∨ out2 x = im x)
    (img out : Image) (h : draw_features features ctp filt dr img = .ok out)
    (hc : img x = c) : out x = c :=
  foldlM_drawStep_writes features ctp dr x c hw (features.filter filt) img out h hc

theorem draw_features_sets (features : List MapFeature) (ctp : CoordToPixel)
    (filt : MapFeature → Bool) (dr : FeatureDrawer) (x : Pix) (c : Color)
    (hw : ∀ f p dp im out2, dr f p dp im = .ok out2 →
      out2 x = c ∨ out2 x = im x)
    (f0 : MapFeature) (hf0 : f0 ∈ features) (hfilt : filt f0 = true)
    (hset : ∀ dp im out2,
      get_destination_pixel features f0.destination ctp = .ok dp →
      dr f0 (ctp f0.coord) dp im = .ok out2 → out2 x = c)
    (img out : Image) (h : draw_features features ctp filt dr img = .ok out) :
    out x = c :=
  foldlM_drawStep_sets features ctp dr x c hw f0 hset (features.filter filt)
    img out (List.mem_filter.mpr ⟨hf0, hfilt⟩) h

theorem draw_features_frame (features : List MapFeature) (ctp : CoordToPixel)
    (filt : MapFeature → Bool) (dr : FeatureDrawer) (x : Pix)
    (hpres : ∀ f ∈ features, filt f = true → ∀ dp im out2,
      get_destination_pixel features f.destination ctp = .ok dp →
      dr f (ctp f.coord) dp im = .ok out2 → out2 x = im x)
    (img out : Image) (h : draw_features features ctp filt dr img = .ok out) :
    out x = img x :=
  foldlM_drawStep_frame features ctp dr x (features.filter filt)
    (fun f hf => hpres f (List.mem_filter.mp hf).1 (List.mem_filter.mp hf).2)
    img out h

theorem label_drawer_writes (tcov : TextCov) (c : Color) (x : Pix) :
    ∀ f p dp im out2, create_label_drawer tcov c f p dp im = .ok out2 →
      out2 x = c ∨ out2 x = im x := by
  intro f p dp im out2 hout
  simp only [create_label_drawer] at hout
  rw [← Except.ok.inj hout]
  by_cases hcv : tcov f.name (p.1 + 2, p.2 + 9) x = true
  · exact Or.inl (by simp [cvPutText, hcv])
  · exact Or.inr (by simp [cvPutText, hcv])

/-- C4.  `draw_all_features` runs the layers in the fixed source order —
roads, electrical cords, tent, mats, spools — and because the spool label
pass is the very last drawing pass, any pixel covered by some spool label
ends up with the label colour, never obscured by another layer. -/
theorem spool_labels_drawn_last (cov : LineCov) (tcov : TextCov) (img : Image)
    (features : List MapFeature) (ctp : CoordToPixel) (out : Image)
    (s : MapFeature) (x : Pix)
    (h : draw_all_features cov tcov img features ctp = .ok out)
    (hs : s ∈ features) (hst : s.type = "Spool")
    (hcov : tcov s.name ((ctp s.coord).1 + 2, (ctp s.coord).2 + 9) x = true) :
    out x = (228, 228, 228) ∧
    draw_all_features cov tcov img features ctp = (do
      let i1 ← draw_roads cov img features ctp
      let i2 ← draw_electric_cords cov i1 features ctp
      let i3 ← draw_tent cov i2 features ctp
      let i4 ← draw_mats cov tcov i3 features ctp
      draw_spools cov tcov i4 features ctp) := by
  refine ⟨?_, rfl⟩
  unfold draw_all_features at h
  cases hr : draw_roads cov img features ctp with
  | error e => rw [hr, error_bind] at h; exact absurd h (by simp)
  | ok i1 =>
  rw [hr, ok_bind] at h
  cases hc : draw_electric_cords cov i1 features ctp with
  | error e => rw [hc, error_bind] at h; exact absurd h (by simp)
  | ok i2 =>
  rw [hc, ok_bind] at h
  cases htn : draw_tent cov i2 features ctp with
  | error e => rw [htn, error_bind] at h; exact absurd h (by simp)
  | ok i3 =>
  rw [htn, ok_bind] at h
  cases hm : draw_mats cov tcov i3 features ctp with
  | error e => rw [hm, error_bind] at h; exact absurd h (by simp)
  | ok i4 =>
  rw [hm, ok_bind] at h
  unfold draw_spools at h
  cases hch : draw_features features ctp (filter_for_type "Spool")
      (create_crosshair_drawer cov (255, 0, 0)) i4 with
  | error e => rw [hch, error_bind] at h; exact absurd h (by simp)
  | ok i5 =>
  rw [hch, ok_bind] at h
  exact draw_features_sets features ctp (filter_for_type "Spool")
    (create_label_drawer tcov (228, 228, 228)) x (228, 228, 228)
    (label_drawer_writes tcov (228, 228, 228) x) s hs
    (by simp [filter_for_type, hst])
    (fun dp im out2 hdp hout => by
      simp only [create_label_drawer] at hout
      rw [← Except.ok.inj hout]
      simp [cvPutText, hcov])
    i5 out h

/-- A lone spool used by the layer-order witness. -/
def soloSpool : MapFeature := mkMapFeature "S0" "Spool" 0 0 "w" none none none

/-- Witness for C4 on a one-spool catalogue with an everywhere-covering text
rasteriser. -/
theorem spool_labels_drawn_last_witness :
    getImage (draw_all_features covFalse tcovTrue blackImage [soloSpool]
        originCtp) (0, 0) = (228, 228, 228) ∧
    draw_all_features covFalse tcovTrue blackImage [soloSpool] originCtp = (do
      let i1 ← draw_roads covFalse blackImage [soloSpool] originCtp
      let i2 ← draw_electric_cords covFalse i1 [soloSpool] originCtp
      let i3 ← draw_tent covFalse i2 [soloSpool] originCtp
      let i4 ← draw_mats covFalse tcovTrue i3 [soloSpool] originCtp
      draw_spools covFalse tcovTrue i4 [soloSpool] originCtp) :=
  spool_labels_drawn_last covFalse tcovTrue blackImage [soloSpool] originCtp
    (getImage (draw_all_features covFalse tcovTrue blackImage [soloSpool]
      originCtp))
    soloSpool (0, 0) rfl (by simp) rfl rfl

theorem draw_lines_ok_destruct (cov : LineCov) (img : Image)
    (features : List MapFeature) (ctp : CoordToPixel) (types : List String)
    (color : Color) (alpha : ℚ) (width : Int) (out : Image)
    (h : draw_lines cov img features ctp types color alpha width = .ok out) :
    ∃ ov, types.foldlM (linesPass cov color width features ctp) img = .ok ov ∧
      out = cvAddWeighted ov alpha img (1 - alpha) := by
  unfold draw_lines at h
  cases hf : types.foldlM (linesPass cov color width features ctp) img with
  | error e => rw [hf, error_bind] at h; exact absurd h (by simp)
  | ok ov =>
    rw [hf, ok_bind] at h
    exact ⟨ov, rfl, (Except.ok.inj h).symm⟩

theorem line_drawer_writes (cov : LineCov) (color : Color) (width : Int)
    (x : Pix) :
    ∀ f p dp im out2, create_line_drawer cov color width f p dp im = .ok out2 →
      out2 x = color ∨ out2 x = im x := by
  intro f p dp im out2 hout
  cases dp with
  | none => exact absurd hout (by simp [create_line_drawer])
  | some q =>
    simp only [create_line_drawer] at hout
    rw [← Except.ok.inj hout]
    by_cases hcv : cov p q width x = true
    · exact Or.inl (by simp [cvLine, hcv])
    · exact Or.inr (by simp [cvLine, hcv])

theorem linesFold_writes (cov : LineCov) (color : Color) (width : Int)
    (features : List MapFeature) (ctp : CoordToPixel) (x : Pix)
    (types : List String) :
    ∀ img ov, types.foldlM (linesPass cov color width features ctp) img = .ok ov →
      img x = color → ov x = color := by
  induction types with
  | nil =>
    intro img ov h hc
    rw [List.foldlM_nil, pure_eq_ok] at h
    rw [← Except.ok.inj h, hc]
  | cons t ts ih =>
    intro img ov h hc
    rw [List.foldlM_cons] at h
    cases hp : linesPass cov color width features ctp img t with
    | error e => rw [hp, error_bind] at h; exact absurd h (by simp)
    | ok mid =>
      rw [hp, ok_bind] at h
      refine ih _ _ h ?_
      exact draw_features_writes features ctp (filter_for_line t)
        (create_line_drawer cov color width) x color
        (line_drawer_writes cov color width x) img mid hp hc

theorem linesFold_sets (cov : LineCov) (color : Color) (width : Int)
    (features : List MapFeature) (ctp : CoordToPixel) (x : Pix)
    (f0 : MapFeature) (hf0 : f0 ∈ features)
    (hset : ∀ dp im out2,
      get_destination_pixel features f0.destination ctp = .ok dp →
      create_line_drawer cov color width f0 (ctp f0.coord) dp im = .ok out2 →
      out2 x = color)
    (types : List String) (t0 : String) (ht0 : t0 ∈ types)
    (hfilt : filter_for_line t0 f0 = true) :
    ∀ img ov, types.foldlM (linesPass cov color width features ctp) img = .ok ov →
      ov x = color := by
  induction types with
  | nil => exact absurd ht0 (by simp)
  | cons t ts ih =>
    intro img ov h
    rw [List.foldlM_cons] at h
    cases hp : linesPass cov color width features ctp img t with
    | error e => rw [hp, error_bind] at h; exact absurd h (by simp)
    | ok mid =>
      rw [hp, ok_bind] at h
      rcases List.mem_cons.mp ht0 with rfl | hts
      · have hmid : mid x = color :=
          draw_features_sets features ctp (filter_for_line t0)
            (create_line_drawer cov color width) x color
            (line_drawer_writes cov color width x) f0 hf0 hfilt hset img mid hp
        exact linesFold_writes cov color width features ctp x ts _ _ h hmid
      · exact ih hts _ _ h

theorem linesFold_frame (cov : LineCov) (color : Color) (width : Int)
    (features : List MapFeature) (ctp : CoordToPixel) (x : Pix)
    (types : List String)
    (hpres : ∀ t ∈ types, ∀ f ∈ features, filter_for_line t f = true →
      ∀ dp im out2, get_destination_pixel features f.destination ctp = .ok dp →
        create_line_drawer cov color width f (ctp f.coord) dp im = .ok out2 →
        out2 x = im x) :
    ∀ img ov, types.foldlM (linesPass cov color width features ctp) img = .ok ov →
      ov x = img x := by
  induction types with
  | nil =>
    intro img ov h
    rw [List.foldlM_nil, pure_eq_ok] at h
    rw [← Except.ok.inj h]
  | cons t ts ih =>
    intro img ov h
    rw [List.foldlM_cons] at h
    cases hp : linesPass cov color width features ctp img t with
    | error e => rw [hp, error_bind] at h; exact absurd h (by simp)
    | ok mid =>
      rw [hp, ok_bind] at h
      have hmid : mid x = img x :=
        draw_features_frame features ctp (filter_for_line t)
          (create_line_drawer cov color width) x
          (fun f hf hfl => hpres t (by simp) f hf hfl) img mid hp
      rw [ih (fun t2 ht2 => hpres t2 (List.mem_cons_of_mem _ ht2)) _ _ h, hmid]

/-- C5.  In a translucent layer, a pixel covered by at least one stroke of
the layer ends up as the alpha blend of the stroke colour with the pre-layer
base image, independent of how many strokes cover it: strokes are drawn at
full opacity onto a scratch copy, which is blended back exactly once. -/
theorem translucent_blend (cov : LineCov) (img : Image)
    (features : List MapFeature) (ctp : CoordToPixel) (types : List String)
    (color : Color) (alpha : ℚ) (width : Int) (out : Image) (t : String)
    (f g : MapFeature) (d : String) (x : Pix)
    (h : draw_lines cov img features ctp types color alpha width = .ok out)
    (ht : t ∈ types) (hf : f ∈ features) (hft : f.type = t)
    (hfd : f.destination = some d) (hne : d ≠ "")
    (hg : find_map_entry features d = .ok g)
    (hcov : cov (ctp f.coord) (ctp g.coord) width x = true) :
    out x = (alpha * color.1 + (1 - alpha) * (img x).1,
             alpha * color.2.1 + (1 - alpha) * (img x).2.1,
             alpha * color.2.2 + (1 - alpha) * (img x).2.2) := by
  obtain ⟨ov, hfold, hout⟩ :=
    draw_lines_ok_destruct cov img features ctp types color alpha width out h
  have hset : ∀ dp im out2,
      get_destination_pixel features f.destination ctp = .ok dp →
      create_line_drawer cov color width f (ctp f.coord) dp im = .ok out2 →
      out2 x = color := by
    intro dp im out2 hdp hout
    rw [hfd, gdp_ok_of_find features ctp d g hne hg] at hdp
    rw [← Except.ok.inj hdp] at hout
    simp only [create_line_drawer] at hout
    rw [← Except.ok.inj hout]
    simp [cvLine, hcov]
  have hfilt : filter_for_line t f = true := by
    simp [filter_for_line, hft, hfd]
  have hov : ov x = color :=
    linesFold_sets cov color width features ctp x f hf hset types t ht hfilt
      img ov hfold
  rw [hout]
  show (alpha * (ov x).1 + (1 - alpha) * (img x).1,
        alpha * (ov x).2.1 + (1 - alpha) * (img x).2.1,
        alpha * (ov x).2.2 + (1 - alpha) * (img x).2.2) = _
  rw [hov]

/-- C10.  A pixel covered by no stroke of a translucent layer is unchanged by
the layer: the scratch copy equals the base image there, and blending a value
with itself under weights `alpha` and `1 - alpha` returns it exactly. -/
theorem translucent_frame (cov : LineCov) (img : Image)
    (features : List MapFeature) (ctp : CoordToPixel) (types : List String)
    (color : Color) (alpha : ℚ) (width : Int) (out : Image) (x : Pix)
    (h : draw_lines cov img features ctp types color alpha width = .ok out)
    (hnc : ∀ t ∈ types, ∀ f ∈ features, f.type = t → ∀ d,
      f.destination = some d → ∀ g, find_map_entry features d = .ok g →
      cov (ctp f.coord) (ctp g.coord) width x = false) :
    out x = img x := by
  obtain ⟨ov, hfold, hout⟩ :=
    draw_lines_ok_destruct cov img features ctp types color alpha width out h
  have hov : ov x = img x := by
    refine linesFold_frame cov color width features ctp x types ?_ img ov hfold
    intro t ht f hf hfilt dp im out2 hdp hout
    cases dp with
    | none => exact absurd hout (by simp [create_line_drawer])
    | some q =>
      obtain ⟨d, g, hd2, hne2, hfind, hq⟩ :=
        gdp_ok_some_form features ctp f.destination q hdp
      have htype : f.type = t := filter_for_line_type t f hfilt
      have hc := hnc t ht f hf htype d hd2 g hfind
      rw [hq] at hout
      simp only [create_line_drawer] at hout
      rw [← Except.ok.inj hout]
      simp [cvLine, hc]
  rw [hout]
  show (alpha * (ov x).1 + (1 - alpha) * (img x).1,
        alpha * (ov x).2.1 + (1 - alpha) * (img x).2.1,
        alpha * (ov x).2.2 + (1 - alpha) * (img x).2.2) = img x
  rw [hov]
  refine Prod.ext (by ring) (Prod.ext (by ring) (by ring))

/-- A road segment pointing at the next road marker; witness fixture. -/
def roadA : MapFeature := mkMapFeature "RA" "Road" 0 0 "w" (some "RB") none none

/-- The road marker `roadA` points at; witness fixture. -/
def roadB : MapFeature := mkMapFeature "RB" "Road" 1 1 "w" none none none

/-- Witness for C5: with an everywhere-covering rasteriser, the road layer
blends the road colour with the black base at 30 percent opacity. -/
theorem translucent_blend_witness :
    getImage (draw_lines covTrue blackImage [roadA, roadB] originCtp ["Road"]
        (128, 128, 0) (0.30 : ℚ) 20) (0, 0) =
      ((0.30 : ℚ) * 128 + (1 - (0.30 : ℚ)) * 0,
       (0.30 : ℚ) * 128 + (1 - (0.30 : ℚ)) * 0,
       (0.30 : ℚ) * 0 + (1 - (0.30 : ℚ)) * 0) :=
  translucent_blend covTrue blackImage [roadA, roadB] originCtp ["Road"]
    (128, 128, 0) (0.30 : ℚ) 20
    (getImage (draw_lines covTrue blackImage [roadA, roadB] originCtp ["Road"]
      (128, 128, 0) (0.30 : ℚ) 20))
    "Road" roadA roadB "RB" (0, 0) rfl (by simp) (by simp) rfl rfl
    (by decide) rfl rfl

/-- Witness for C10: with a nowhere-covering rasteriser the road layer leaves
the base image unchanged. -/
theorem translucent_frame_witness :
    getImage (draw_lines covFalse blackImage [roadA, roadB] originCtp ["Road"]
        (128, 128, 0) (0.30 : ℚ) 20) (0, 0) = blackImage (0, 0) :=
  translucent_frame covFalse blackImage [roadA, roadB] originCtp ["Road"]
    (128, 128, 0) (0.30 : ℚ) 20
    (getImage (draw_lines covFalse blackImage [roadA, roadB] originCtp ["Road"]
      (128, 128, 0) (0.30 : ℚ) 20))
    (0, 0) rfl (fun _ _ _ _ _ _ _ _ _ => rfl)

/-- The order in which a `draw_lines` layer visits its features: one pass per
feature type, in the order of the layer's type list, each pass scanning the
catalogue in insertion order. -/
def lineLayerDrawOrder (features : List MapFeature) (types : List String) :
    List MapFeature :=
  types.flatMap (fun t => features.filter (filter_for_line t))

theorem linesFold_eq_flat (cov : LineCov) (color : Color) (width : Int)
    (features : List MapFeature) (ctp : CoordToPixel) (types : List String) :
    ∀ img, types.foldlM (linesPass cov color width features ctp) img =
      (lineLayerDrawOrder features types).foldlM
        (drawStep features ctp (create_line_drawer cov color width)) img := by
  induction types with
  | nil =>
    intro img
    simp only [lineLayerDrawOrder, List.flatMap_nil, List.foldlM_nil]
  | cons t ts ih =>
    intro img
    rw [List.foldlM_cons]
    have hord : lineLayerDrawOrder features (t :: ts) =
        features.filter (filter_for_line t) ++ lineLayerDrawOrder features ts := by
      unfold lineLayerDrawOrder
      rw [List.flatMap_cons]
    rw [hord, List.foldlM_append]
    rw [show linesPass cov color width features ctp img t =
      (features.filter (filter_for_line t)).foldlM
        (drawStep features ctp (create_line_drawer cov color width)) img from rfl]
    cases hmid : (features.filter (filter_for_line t)).foldlM
        (drawStep features ctp (create_line_drawer cov color width)) img with
    | error e => rw [error_bind, error_bind]
    | ok mid =>
      rw [ok_bind, ok_bind]
      exact ih mid

/-- C8 (amended).  A `draw_lines` layer is exactly one sequential fold of the
resolve-then-draw step over `lineLayerDrawOrder`, followed by a single
blend: features are visited in catalogue insertion order within each single
feature type, but the layer runs one full pass per type in the order of its
type list, so for a layer spanning several types (the electrical cords span
Spool, Source, Mat) the passes are concatenated by type rather than
interleaved by catalogue position. -/
theorem draw_lines_in_layer_order (cov : LineCov) (img : Image)
    (features : List MapFeature) (ctp : CoordToPixel) (types : List String)
    (color : Color) (alpha : ℚ) (width : Int) :
    draw_lines cov img features ctp types color alpha width =
      ((lineLayerDrawOrder features types).foldlM
        (drawStep features ctp (create_line_drawer cov color width)) img).map
        (fun overlay => cvAddWeighted overlay alpha img (1 - alpha)) := by
  unfold draw_lines
  rw [linesFold_eq_flat]
  cases hm : (lineLayerDrawOrder features types).foldlM
      (drawStep features ctp (create_line_drawer cov color width)) img with
  | error e => rw [error_bind, except_map_error]
  | ok overlay => rw [ok_bind, pure_eq_ok, except_map_ok]

/-- A power source listed before the spool, both cord features; C8 fixture. -/
def cordSource : MapFeature :=
  mkMapFeature "S" "Source" 0 0 "c" (some "X") none none

/-- A spool listed after the source; C8 fixture. -/
def cordSpool : MapFeature :=
  mkMapFeature "P" "Spool" 0 0 "c" (some "X") none none

/-- The shared destination of the two cord features; C8 fixture. -/
def cordTarget : MapFeature :=
  mkMapFeature "X" "Source" 1 1 "c" none none none

/-- C8 (counterexample).  In the electrical-cord layer the source `S` appears
before the spool `P` in the catalogue, yet the layer draws `P` first: the
drawing order of the layer is by type pass (Spool, then Source, then Mat),
not catalogue insertion order across types. -/
theorem cord_layer_not_insertion_order :
    [cordSource, cordSpool, cordTarget].map (fun f => f.name) = ["S", "P", "X"] ∧
    (lineLayerDrawOrder [cordSource, cordSpool, cordTarget]
      ["Spool", "Source", "Mat"]).map (fun f => f.name) = ["P", "S"] :=
  ⟨rfl, rfl⟩

/-- C6.  `draw_map` reads the catalogue only through the subset filtered to
the requested map, so two catalogues agreeing on that map's features render
identically, whatever their other maps contain. -/
theorem map_isolation (cov : LineCov) (tcov : TextCov)
    (cat1 cat2 : List MapFeature) (map_name : String) (img : Image)
    (h : cat1.filter (fun x => x.map_name == map_name) =
      cat2.filter (fun x => x.map_name == map_name)) :
    draw_map cov tcov cat1 map_name img = draw_map cov tcov cat2 map_name img := by
  unfold draw_map
  rw [h]

/-- A map1 feature shared by both isolation-witness catalogues. -/
def isoM1 : MapFeature := mkMapFeature "m1" "Source" 0 0 "map1" none none none

/-- A map2 feature present only in the first isolation-witness catalogue. -/
def isoM2a : MapFeature := mkMapFeature "m2a" "Source" 1 1 "map2" none none none

/-- A very different map2 feature present only in the second
isolation-witness catalogue. -/
def isoM2b : MapFeature :=
  mkMapFeature "m2b" "Spool" 2 2 "map2" (some "zzz") (some 9) none

/-- Witness for C6 on two catalogues that agree on map1 and differ on map2. -/
theorem map_isolation_witness :
    draw_map covFalse tcovTrue [isoM1, isoM2a] "map1" blackImage =
    draw_map covFalse tcovTrue [isoM1, isoM2b] "map1" blackImage :=
  map_isolation covFalse tcovTrue [isoM1, isoM2a] [isoM1, isoM2b] "map1"
    blackImage rfl

/-- Erase the rendering-irrelevant usage metadata of a feature. -/
def scrubUsage (f : MapFeature) : MapFeature := { f with users_2023 := none }

theorem find_scrub (q : MapFeature → Bool)
    (hq : ∀ f, q (scrubUsage f) = q f) (l : List MapFeature) :
    (l.map scrubUsage).find? q = (l.find? q).map scrubUsage := by
  induction l with
  | nil => rfl
  | cons h t ih =>
    rw [List.map_cons, List.find?_cons, List.find?_cons]
    cases hqh : q h with
    | true => rw [hq h, hqh]; rfl
    | false => rw [hq h, hqh]; exact ih

theorem find_map_entry_scrub (l : List MapFeature) (d : String) :
    find_map_entry (l.map scrubUsage) d = (find_map_entry l d).map scrubUsage := by
  unfold find_map_entry
  rw [find_scrub (fun feature => feature.name == d) (fun f => rfl) l]
  cases l.find? (fun feature => feature.name == d) with
  | none => rfl
  | some g => rfl

theorem gdp_scrub (l : List MapFeature) (dest : Option String)
    (ctp : CoordToPixel) :
    get_destination_pixel (l.map scrubUsage) dest ctp =
      get_destination_pixel l dest ctp := by
  cases dest with
  | none => rfl
  | some d =>
    by_cases hd : d = ""
    · rw [get_destination_pixel, get_destination_pixel, if_pos hd, if_pos hd]
    · rw [get_destination_pixel, get_destination_pixel, if_neg hd, if_neg hd,
        find_map_entry_scrub]
      cases find_map_entry l d with
      | error e => rfl
      | ok g => rfl

theorem draw_features_scrub (l : List MapFeature) (ctp : CoordToPixel)
    (filt : MapFeature → Bool) (dr : FeatureDrawer)
    (hfilt : ∀ f, filt (scrubUsage f) = filt f)
    (hdr : ∀ f p dp im, dr (scrubUsage f) p dp im = dr f p dp im)
    (img : Image) :
    draw_features (l.map scrubUsage) ctp filt dr img =
      draw_features l ctp filt dr img := by
  unfold draw_features
  have hfm : (l.map scrubUsage).filter filt = (l.filter filt).map scrubUsage := by
    induction l with
    | nil => rfl
    | cons h t ih =>
      rw [List.map_cons, List.filter_cons, List.filter_cons, hfilt h]
      cases hft : filt h <;> simp [ih]
  rw [hfm, List.foldlM_map]
  have hstep : (fun (im : Image) (f : MapFeature) =>
      drawStep (l.map scrubUsage) ctp dr im (scrubUsage f)) =
      drawStep l ctp dr := by
    funext im f
    unfold drawStep
    rw [show (scrubUsage f).destination = f.destination from rfl, gdp_scrub]
    cases hgg : get_destination_pixel l f.destination ctp with
    | error e => rw [error_bind, error_bind]
    | ok dp =>
      rw [ok_bind, ok_bind,
        show (scrubUsage f).coord = f.coord from rfl,
        hdr f (ctp f.coord) dp im]
  rw [hstep]

theorem linesPass_scrub (cov : LineCov) (color : Color) (width : Int)
    (l : List MapFeature) (ctp : CoordToPixel) (img : Image) (t : String) :
    linesPass cov color width (l.map scrubUsage) ctp img t =
      linesPass cov color width l ctp img t :=
  draw_features_scrub l ctp (filter_for_line t)
    (create_line_drawer cov color width) (fun _ => rfl)
    (fun _ _ _ _ => rfl) img

theorem draw_lines_scrub (cov : LineCov) (img : Image) (l : List MapFeature)
    (ctp : CoordToPixel) (types : List String) (color : Color) (alpha : ℚ)
    (width : Int) :
    draw_lines cov img (l.map scrubUsage) ctp types color alpha width =
      draw_lines cov img l ctp types color alpha width := by
  unfold draw_lines
  have hfold : (types.foldlM (linesPass cov color width (l.map scrubUsage) ctp) img) =
      types.foldlM (linesPass cov color width l ctp) img := by
    have hfun : linesPass cov color width (l.map scrubUsage) ctp =
        linesPass cov color width l ctp := by
      funext im t
      exact linesPass_scrub cov color width l ctp im t
    rw [hfun]
  rw [hfold]

theorem draw_spools_scrub (cov : LineCov) (tcov : TextCov) (img : Image)
    (l : List MapFeature) (ctp : CoordToPixel) :
    draw_spools cov tcov img (l.map scrubUsage) ctp =
      draw_spools cov tcov img l ctp := by
  unfold draw_spools
  rw [draw_features_scrub l ctp (filter_for_type "Spool")
    (create_crosshair_drawer cov (255, 0, 0)) (fun _ => rfl)
    (fun _ _ _ _ => rfl) img]
  cases draw_features l ctp (filter_for_type "Spool")
      (create_crosshair_drawer cov (255, 0, 0)) img with
  | error e => rfl
  | ok i1 =>
    rw [ok_bind, ok_bind]
    exact draw_features_scrub l ctp (filter_for_type "Spool")
      (create_label_drawer tcov (228, 228, 228)) (fun _ => rfl)
      (fun _ _ _ _ => rfl) i1

theorem draw_mats_scrub (cov : LineCov) (tcov : TextCov) (img : Image)
    (l : List MapFeature) (ctp : CoordToPixel) :
    draw_mats cov tcov img (l.map scrubUsage) ctp =
      draw_mats cov tcov img l ctp := by
  unfold draw_mats
  rw [draw_features_scrub l ctp (filter_for_type "Mat")
    (create_crosshair_drawer cov (255, 0, 0)) (fun _ => rfl)
    (fun _ _ _ _ => rfl) img]
  cases draw_features l ctp (filter_for_type "Mat")
      (create_crosshair_drawer cov (255, 0, 0)) img with
  | error e => rfl
  | ok i1 =>
    rw [ok_bind, ok_bind]
    exact draw_features_scrub l ctp (filter_for_type "Mat")
      (create_label_drawer tcov (228, 228, 228)) (fun _ => rfl)
      (fun _ _ _ _ => rfl) i1

theorem draw_all_features_scrub (cov : LineCov) (tcov : TextCov) (img : Image)
    (l : List MapFeature) (ctp : CoordToPixel) :
    draw_all_features cov tcov img (l.map scrubUsage) ctp =
      draw_all_features cov tcov img l ctp := by
  unfold draw_all_features draw_roads draw_electric_cords draw_tent
  rw [draw_lines_scrub]
  cases draw_lines cov img l ctp ["Road"] (128, 128, 0) (0.30 : ℚ) 20 with
  | error e => rfl
  | ok i1 =>
  rw [ok_bind, ok_bind, draw_lines_scrub]
  cases draw_lines cov i1 l ctp ["Spool", "Source", "Mat"] (255, 0, 0)
      (0.50 : ℚ) 4 with
  | error e => rfl
  | ok i2 =>
  rw [ok_bind, ok_bind, draw_lines_scrub]
  cases draw_lines cov i2 l ctp ["Tent"] (255, 255, 255) (0.50 : ℚ) 4 with
  | error e => rfl
  | ok i3 =>
  rw [ok_bind, ok_bind, draw_mats_scrub]
  cases draw_mats cov tcov i3 l ctp with
  | error e => rfl
  | ok i4 =>
  rw [ok_bind, ok_bind]
  exact draw_spools_scrub cov tcov i4 l ctp

theorem draw_map_scrub (cov : LineCov) (tcov : TextCov)
    (catalogue : List MapFeature) (map_name : String) (img : Image) :
    draw_map cov tcov (catalogue.map scrubUsage) map_name img =
      draw_map cov tcov catalogue map_name img := by
  unfold draw_map
  have hfm : (catalogue.map scrubUsage).filter (fun x => x.map_name == map_name) =
      (catalogue.filter (fun x => x.map_name == map_name)).map scrubUsage := by
    induction catalogue with
    | nil => rfl
    | cons h t ih =>
      rw [List.map_cons, List.filter_cons, List.filter_cons,
        show (scrubUsage h).map_name = h.map_name from rfl]
      cases hmn : h.map_name == map_name <;> simp [ih]
  rw [hfm]
  set l := catalogue.filter (fun x => x.map_name == map_name) with hl
  dsimp only
  rw [find_map_entry_scrub]
  cases find_map_entry l (map_name ++ "_mark0") with
  | error e => rfl
  | ok e1 =>
  rw [except_map_ok, ok_bind, ok_bind, find_map_entry_scrub]
  cases find_map_entry l (map_name ++ "_mark1") with
  | error e => rfl
  | ok e2 =>
  rw [except_map_ok, ok_bind, ok_bind, find_map_entry_scrub]
  cases find_map_entry l (map_name ++ "_mark2") with
  | error e => rfl
  | ok b =>
  rw [except_map_ok, ok_bind, ok_bind]
  have hcomp : compute_coord_to_pixel_function (scrubUsage e1) (scrubUsage e2)
      (scrubUsage b) = compute_coord_to_pixel_function e1 e2 b := rfl
  rw [hcomp]
  cases compute_coord_to_pixel_function e1 e2 b with
  | error e => rfl
  | ok f =>
  rw [ok_bind, ok_bind]
  exact draw_all_features_scrub cov tcov img l f

/-- C9.  Two catalogues that differ only in the usage metadata of their
features render every map identically, while the metadata itself is retained
on the constructed feature records. -/
theorem usage_metadata_no_effect (cov : LineCov) (tcov : TextCov)
    (cat1 cat2 : List MapFeature) (map_name : String) (img : Image)
    (h : cat1.map scrubUsage = cat2.map scrubUsage) :
    draw_map cov tcov cat1 map_name img = draw_map cov tcov cat2 map_name img ∧
    ∀ (n ft : String) (lo la : ℚ) (mn : String) (dst : Option String)
      (u : Option Int) (px : Option (Int × Int)),
      (mkMapFeature n ft lo la mn dst u px).users_2023 = u := by
  refine ⟨?_, fun _ _ _ _ _ _ _ _ => rfl⟩
  calc draw_map cov tcov cat1 map_name img
      = draw_map cov tcov (cat1.map scrubUsage) map_name img :=
        (draw_map_scrub cov tcov cat1 map_name img).symm
    _ = draw_map cov tcov (cat2.map scrubUsage) map_name img := by rw [h]
    _ = draw_map cov tcov cat2 map_name img :=
        draw_map_scrub cov tcov cat2 map_name img

/-- A spool with three 2023 users; C9 fixture. -/
def uSpoolA : MapFeature := mkMapFeature "U" "Spool" 0 0 "u" none (some 3) none

/-- The same spool recorded with seven 2023 users; C9 fixture. -/
def uSpoolB : MapFeature := mkMapFeature "U" "Spool" 0 0 "u" none (some 7) none

/-- Witness for C2 on a collinear marker triple: calibration raises the
linear-algebra error and the whole map render fails with it. -/
theorem degenerate_calibration_fails_witness :
    compute_coord_to_pixel_function dgMark0 dgMark1 dgMark2 =
      .error .linAlgError ∧
    draw_map covFalse tcovTrue [dgMark0, dgMark1, dgMark2] "d" blackImage =
      .error .linAlgError :=
  degenerate_calibration_fails covFalse tcovTrue [dgMark0, dgMark1, dgMark2]
    "d" blackImage dgMark0 dgMark1 dgMark2 (10, 10) (20, 20) (0, 0)
    rfl rfl rfl rfl rfl rfl
    ⟨2, -1, Or.inl (by norm_num),
      by norm_num [dgMark0, dgMark1, dgMark2, mkMapFeature],
      by norm_num [dgMark0, dgMark1, dgMark2, mkMapFeature]⟩

/-- Witness for C9 on two one-spool catalogues differing only in usage. -/
theorem usage_metadata_no_effect_witness :
    draw_map covFalse tcovTrue [uSpoolA] "u" blackImage =
      draw_map covFalse tcovTrue [uSpoolB] "u" blackImage ∧
    ∀ (n ft : String) (lo la : ℚ) (mn : String) (dst : Option String)
      (u : Option Int) (px : Option (Int × Int)),
      (mkMapFeature n ft lo la mn dst u px).users_2023 = u :=
  usage_metadata_no_effect covFalse tcovTrue [uSpoolA] [uSpoolB] "u"
    blackImage rfl

end Starfest
